import Mathlib

/-
Verification of the incremental chat-history exporter (export-history.py).

Timestamps are modelled as natural numbers: microseconds elapsed since
0001-01-01T00:00:00 (Python's `datetime.min`, the script's `null_date`).
Every `datetime` the script handles is at or after that instant, and all of
the script's date arithmetic (adding `timedelta(days=1)`, subtracting one
microsecond, truncating to start of day) is exact microsecond arithmetic,
so this is a faithful embedding of the script's time calculations.

Schema versions (Python floats 1.0 / 1.1, compared with `<`) are modelled
as rationals; the comparisons involved are exact in either representation.
-/

namespace ExportHistory

/-- One calendar day in microseconds (`one_day = datetime.timedelta(days=1)`,
line 48 of export-history.py). -/
def oneDay : ℕ := 86400000000

/-- Sentinel for "never" / "no messages": `null_date = datetime(1, 1, 1, 0, 0, 0, 0)`
(line 51), which is instant 0 in this encoding. -/
def nullDate : ℕ := 0

/-- Current state-schema version, `VERSION = 1.1` (line 44). -/
def VERSION : ℚ := 11 / 10

/-- Truncation of a timestamp to the start of its calendar day, as performed by
`.replace(hour=0, minute=0, second=0, microsecond=0)` (lines 63, 114). -/
def toDayStart (t : ℕ) : ℕ := (t / oneDay) * oneDay

/-- A per-room record of the state dictionary (`assemble_state`, lines 110-121):
`name`, `type` (room kind), `lastsaved` (sync watermark, the spec's
`syncedThrough`), `begintime` (room creation truncated to start of day, the
spec's `createdAt`), `lastmessage` (timestamp of the newest remote message,
the spec's `lastRemoteMessageAt`; `nullDate` when the room has none). -/
structure Room where
  name : String
  type : String
  lastsaved : ℕ
  begintime : ℕ
  lastmessage : ℕ
deriving DecidableEq

/-- An entry of the `room_state` dictionary: either the `'_meta'` entry
(holding `schema_version`, plus a `lastsaved` key once line 269 has run on it,
`none` while that key is absent) or a room record. -/
inductive Entry where
  | meta (schema_version : ℚ) (lastsaved : Option ℕ)
  | room (r : Room)
deriving DecidableEq

/-- The `room_state` dictionary: an insertion-ordered association list from
room id to entry, the model of a Python `dict`. -/
abbrev StateA := List (String × Entry)

/-- Dictionary lookup (`state_array[k]` / `k in state_array`). -/
def dictGet (s : StateA) (k : String) : Option Entry :=
  match s with
  | [] => none
  | (k', v) :: tl => if k' = k then some v else dictGet tl k

/-- Replacement of the pair bound to key `k`, leaving other pairs alone; the
elementwise operation of `dictInsert` on a present key. -/
def replaceKey (k : String) (e : Entry) (p : String × Entry) : String × Entry :=
  if p.1 = k then (k, e) else p

/-- Dictionary assignment `state_array[k] = e`: replaces the entry when the key
is present, appends it otherwise (Python dict semantics). -/
def dictInsert (s : StateA) (k : String) (e : Entry) : StateA :=
  if (dictGet s k).isSome then s.map (replaceKey k e) else s ++ [(k, e)]

/-- A provider-reported room descriptor, one element of the JSON lists walked
by `assemble_state` (lines 107-121): `_id`, optional `name` (direct messages
lack it), creation timestamp `ts`, and optional last-message timestamp `lm`
(`channel.get('lm')`; rooms with no messages lack the field). The string
timestamps of the JSON are modelled already parsed (`datetime.strptime` with
the fixed format is injective on the script's inputs). -/
structure ChannelDesc where
  _id : String
  name : Option String
  ts : ℕ
  lm : Option ℕ
deriving DecidableEq

/-- The fresh record created for a newly discovered room (lines 110-115):
synthesized name for nameless direct-message rooms, watermark `null_date`,
creation time truncated to start of day. `lastmessage` is initialised to
`nullDate` here; the Python dict literal omits the key, but line 121
assigns it unconditionally right afterwards, so the composed behaviour
(`assembleOne`) is identical. -/
def newRoomRecord (room_type : String) (c : ChannelDesc) : Room :=
  { name := c.name.getD ("direct-" ++ c._id)
  , type := room_type
  , lastsaved := nullDate
  , begintime := toDayStart c.ts
  , lastmessage := nullDate }

/-- Line 121, `state_array[channel['_id']]['lastmessage'] = lm` with `lm`
computed by lines 117-120 (absent `lm` field maps to `null_date`). The
underscore branch covers scrutinees the script never produces here: the key
was just inserted as a room record when absent. -/
def updateLm (s : StateA) (c : ChannelDesc) : StateA :=
  match dictGet s c._id with
  | some (Entry.room r) => dictInsert s c._id (Entry.room { r with lastmessage := c.lm.getD nullDate })
  | _ => s

/-- Body of `assemble_state`'s loop for one provider-reported room
(lines 108-121): insert a fresh record when the id is new, then refresh
`lastmessage`. -/
def assembleOne (state_array : StateA) (room_type : String) (c : ChannelDesc) : StateA :=
  updateLm
    (if (dictGet state_array c._id).isSome then state_array
     else dictInsert state_array c._id (Entry.room (newRoomRecord room_type c)))
    c

/-- Function `assemble_state(state_array, room_json, room_type)` (lines 107-121):
fold of `assembleOne` over the provider's room list, in list order. -/
def assemble_state (state_array : StateA) (channels : List ChannelDesc) (room_type : String) : StateA :=
  channels.foldl (fun acc c => assembleOne acc room_type c) state_array

/-- The value `lastmessage` holds for room id `id` after the provider list
`channels` has been walked, starting from `old`: the last matching channel's
`lm` field (absent field mapping to `nullDate`), or `old` when no channel in
the list has that id. -/
def refreshedLm (channels : List ChannelDesc) (id : String) (old : ℕ) : ℕ :=
  channels.foldl (fun acc c => if c._id = id then c.lm.getD nullDate else acc) old

/-- The `t_typemap` of the 1.0 → 1.1 upgrade step (line 130); a key outside
the map raises `KeyError`, modelled as `none`. -/
def t_typemap (t : String) : Option String :=
  if t = "direct" then some "ims" else if t = "channel" then some "channels" else none

/-- One iteration of the upgrade loop (lines 131-132),
`state_array[t_id]['type'] = t_typemap[state_array[t_id]['type']]`: remaps a
room's `type` through `t_typemap`; on the `'_meta'` entry the subscript
`['type']` raises `KeyError` (the meta dict has no such key), modelled as
`none`. -/
def remapEntry : String × Entry → Option (String × Entry)
  | (id, Entry.room r) => (t_typemap r.type).map (fun ty => (id, Entry.room { r with type := ty }))
  | (_, Entry.meta _ _) => none

/-- Line 154: `schema_version = 1.0 if '_meta' not in room_state else
room_state['_meta']['schema_version']`. A `'_meta'` key bound to a room record
would raise `KeyError` on `['schema_version']`, modelled as `none`. -/
def loadedSchemaVersion (s : StateA) : Option ℚ :=
  match dictGet s "_meta" with
  | none => some 1
  | some (Entry.meta v _) => some v
  | some (Entry.room _) => none

/-- Function `upgrade_state_schema` (lines 124-137). The version the guard on
line 127 reads is the module-global `schema_version`, which at the sole call
site (line 156) equals the `old_schema_version` argument, passed here
explicitly. Under the guard, every entry's `type` is remapped (an exception
aborting the run is `none`) and `state_array['_meta']` is set to a fresh dict
holding only `schema_version: 1.1` (line 133). Without the guard the function
only logs and returns the state unchanged. -/
def upgrade_state_schema (state_array : StateA) (old_schema_version : ℚ) : Option StateA :=
  if old_schema_version < 11 / 10 then
    (state_array.mapM remapEntry).map
      (fun s2 => dictInsert s2 "_meta" (Entry.meta (11 / 10) none))
  else some state_array

/-- The state-load migration (lines 154-156): read the schema version and run
`upgrade_state_schema` when it is below `VERSION`; already-current states pass
through unchanged. -/
def migrate (s : StateA) : Option StateA :=
  match loadedSchemaVersion s with
  | none => none
  | some v => if v < VERSION then upgrade_state_schema s v else some s

/-- Selection of `t_oldest`, the effective lower bound of a room's plan
(lines 189-197): `max(begintime, start_time)` when a global start is supplied,
else one microsecond past `lastsaved` when that watermark has been set
(differs from `null_date`), else `begintime`. -/
def selectLower (channel_data : Room) (start_time : Option ℕ) : ℕ :=
  match start_time with
  | some st => if channel_data.begintime > st then channel_data.begintime else st
  | none =>
    if channel_data.lastsaved ≠ nullDate then channel_data.lastsaved + 1
    else channel_data.begintime

/-- The day-window plan of the room loop (lines 199-260): while
`t_oldest < end_time` and `t_oldest < lastmessage`, emit the window
`[t_oldest, t_oldest + one_day - 1 microsecond]` (line 208) and advance
`t_oldest` by one day (line 260). -/
def planFrom (t_oldest end_time lastmessage : ℕ) : List (ℕ × ℕ) :=
  if _h : t_oldest < end_time ∧ t_oldest < lastmessage then
    (t_oldest, t_oldest + oneDay - 1) :: planFrom (t_oldest + oneDay) end_time lastmessage
  else []
termination_by end_time - t_oldest
decreasing_by
  simp only [oneDay]
  omega

/-- Outcome of the per-window write decision (lines 252-256). -/
inductive WriteAction where
  | write
  | anomalySkip
  | skip
deriving DecidableEq

/-- The write decision for one fetched window (lines 252-256): `write` when
`num_messages > 0` (the file is written), otherwise the `elif
num_messages > count_max` anomaly branch, otherwise nothing. -/
def exportDecision (num_messages count_max : ℕ) : WriteAction :=
  if num_messages > 0 then WriteAction.write
  else if num_messages > count_max then WriteAction.anomalySkip
  else WriteAction.skip

/-- A history-API error response, with the information the retry handler
(lines 228-244) extracts from the error text: whether
`"error-too-many-requests"` occurs in it, and the wait seconds parsed by the
`must wait (\d+) seconds` search when that pattern matches. The regular
expressions themselves are transport detail; the handler's control flow
depends only on these two facts. -/
structure ApiErrorInfo where
  tooManyRequests : Bool
  waitSeconds : Option ℕ
deriving DecidableEq

/-- The pacing-delay update of line 236,
`polite_pause += seconds_to_wait if seconds_to_wait < polite_pause else polite_pause`. -/
def pauseAfter (seconds_to_wait polite_pause : ℕ) : ℕ :=
  polite_pause + (if seconds_to_wait < polite_pause then seconds_to_wait else polite_pause)

/-- The error handler of lines 228-244. `some (w, p)` means: sleep `w` seconds,
set the pacing delay to `p`, and retry the same window; `none` means a fatal
exception aborts the run (unreasonable backoff of 300 s or more, an
unparseable rate-limit message, or an untrapped error). -/
def handleApiError (e : ApiErrorInfo) (polite_pause : ℕ) : Option (ℕ × ℕ) :=
  if e.tooManyRequests then
    match e.waitSeconds with
    | some seconds_to_wait =>
      if seconds_to_wait < 300 then
        some (seconds_to_wait, pauseAfter seconds_to_wait polite_pause)
      else none
    | none => none
  else none

/-- A history-API response for one attempt at a window: success with the raw
body and its message count, or an error. -/
inductive ApiResponse where
  | success (rawText : String) (numMessages : ℕ)
  | failure (e : ApiErrorInfo)
deriving DecidableEq

/-- Result of the retry loop: the window's payload together with the pacing
delay in force afterwards, a fatal abort, or exhaustion of the modelled
response sequence (the real loop would keep calling the provider). -/
inductive FetchOutcome where
  | done (rawText : String) (numMessages : ℕ) (polite_pause : ℕ)
  | fatal
  | noResponse
deriving DecidableEq

/-- The retry loop of lines 215-246 for one fixed window, driven by an oracle
list of successive API responses: it repeats the identical request until one
succeeds, updating only the pacing delay in between; the loop condition is
`retry_flag` alone, so the attempt counter `retry_count` never bounds the
retries. -/
def fetchLoop : List ApiResponse → ℕ → FetchOutcome
  | [], _ => FetchOutcome.noResponse
  | ApiResponse.success t n :: _, p => FetchOutcome.done t n p
  | ApiResponse.failure e :: rest, p =>
    match handleApiError e p with
    | some (_, p2) => fetchLoop rest p2
    | none => FetchOutcome.fatal

/-- Line 269's effect on one entry, `room_state[channel_id]['lastsaved'] =
end_time`: sets the room watermark, or adds the `lastsaved` key to the
`'_meta'` dict. -/
def setLastsaved (e : Entry) (t : ℕ) : Entry :=
  match e with
  | Entry.meta v _ => Entry.meta v (some t)
  | Entry.room r => Entry.room { r with lastsaved := t }

/-- The room loop's (lines 178-269) total effect on `room_state`: the window
processing inside the `if channel_id != '_meta'` block only reads the state,
and line 269 — indented at loop-body level, outside that guard — assigns
`lastsaved = end_time` on every entry, the `'_meta'` entry included. -/
def runWatermarkPass (s : StateA) (end_time : ℕ) : StateA :=
  s.map (fun p => (p.1, setLastsaved p.2 end_time))

/-- The sequence of state-file contents visible on disk while the state save
(lines 274-276) runs: the prior contents, then — `open(state_file, 'wb')`
truncates the file in place — an empty file, then the fully serialised state
once `pickle.dump` and `close` finish. -/
def stateSaveStates (old : Option String) (serialized : String) : List (Option String) :=
  [old, some "", some serialized]

/-- Contiguity of two successive day windows: the later one starts one
microsecond after the earlier one ends. -/
def contiguousNext (a b : ℕ × ℕ) : Prop := b.1 = a.2 + 1

/-- Non-overlap of two day windows listed in order: the earlier one ends
strictly before the later one starts. -/
def windowsDisjoint (a b : ℕ × ℕ) : Prop := a.2 < b.1

/-- Well-formedness of one planned window against bounds `e` (global end) and
`m` (last remote message): it starts on a calendar-day boundary, spans exactly
that one calendar day (`[d, d + 1 day - 1 microsecond]`), and starts below
both bounds. -/
def windowWF (e m : ℕ) (w : ℕ × ℕ) : Prop :=
  w.1 % oneDay = 0 ∧ w.2 = w.1 + (oneDay - 1) ∧ w.1 < e ∧ w.1 < m

/-- Well-formedness of every window of a plan. -/
def planWF (plan : List (ℕ × ℕ)) (e m : ℕ) : Prop :=
  ∀ w ∈ plan, windowWF e m w

/-! General lemmas about the embedded operations, shared by the claim
theorems below. -/

theorem oneDay_pos : 0 < oneDay := by norm_num [oneDay]

theorem planFrom_cons (L e m : ℕ) (h1 : L < e) (h2 : L < m) :
    planFrom L e m = (L, L + oneDay - 1) :: planFrom (L + oneDay) e m := by
  rw [planFrom]
  simp [h1, h2]

theorem planFrom_nil (L e m : ℕ) (h : e ≤ L ∨ m ≤ L) : planFrom L e m = [] := by
  rw [planFrom]
  have hx : ¬(L < e ∧ L < m) := by omega
  simp [hx]

theorem planFrom_nil_iff (L e m : ℕ) : planFrom L e m = [] ↔ e ≤ L ∨ m ≤ L := by
  constructor
  · intro h
    by_contra hc
    push_neg at hc
    rw [planFrom_cons L e m (by omega) (by omega)] at h
    exact List.cons_ne_nil _ _ h
  · exact planFrom_nil L e m

theorem planFrom_mem (L e m : ℕ) :
    ∀ w ∈ planFrom L e m,
      w.2 = w.1 + (oneDay - 1) ∧ w.1 < e ∧ w.1 < m ∧ L ≤ w.1 ∧ w.1 % oneDay = L % oneDay := by
  intro w hw
  by_cases h : L < e ∧ L < m
  · rw [planFrom_cons L e m h.1 h.2] at hw
    rcases List.mem_cons.mp hw with hw | hw
    · subst hw
      have hD := oneDay_pos
      refine ⟨by omega, h.1, h.2, Nat.le_refl L, rfl⟩
    · obtain ⟨h1, h2, h3, h4, h5⟩ := planFrom_mem (L + oneDay) e m w hw
      have hD := oneDay_pos
      exact ⟨h1, h2, h3, by omega, by rw [h5, Nat.add_mod_right]⟩
  · rw [planFrom_nil L e m (by omega)] at hw
    simp at hw
termination_by e - L
decreasing_by
  simp only [oneDay] at *
  omega

theorem planFrom_chain (L e m : ℕ) :
    List.Chain' contiguousNext (planFrom L e m) := by
  by_cases h : L < e ∧ L < m
  · rw [planFrom_cons L e m h.1 h.2]
    rw [List.chain'_cons']
    refine ⟨?_, planFrom_chain (L + oneDay) e m⟩
    intro y hy
    by_cases h2 : L + oneDay < e ∧ L + oneDay < m
    · rw [planFrom_cons _ e m h2.1 h2.2] at hy
      simp only [List.head?_cons, Option.mem_def, Option.some.injEq] at hy
      subst hy
      have hD := oneDay_pos
      show L + oneDay = L + oneDay - 1 + 1
      omega
    · rw [planFrom_nil _ e m (by omega)] at hy
      simp at hy
  · rw [planFrom_nil L e m (by omega)]
    exact List.chain'_nil
termination_by e - L
decreasing_by
  simp only [oneDay] at *
  omega

theorem planFrom_pairwise (L e m : ℕ) :
    List.Pairwise windowsDisjoint (planFrom L e m) := by
  by_cases h : L < e ∧ L < m
  · rw [planFrom_cons L e m h.1 h.2]
    refine List.Pairwise.cons ?_ (planFrom_pairwise (L + oneDay) e m)
    intro b hb
    obtain ⟨_, _, _, h4, _⟩ := planFrom_mem (L + oneDay) e m b hb
    have hD := oneDay_pos
    show L + oneDay - 1 < b.1
    omega
  · rw [planFrom_nil L e m (by omega)]
    exact List.Pairwise.nil
termination_by e - L
decreasing_by
  simp only [oneDay] at *
  omega

theorem dictGet_nil (k : String) : dictGet [] k = none := rfl

theorem dictGet_cons (k1 : String) (v : Entry) (tl : StateA) (k : String) :
    dictGet ((k1, v) :: tl) k = if k1 = k then some v else dictGet tl k := rfl

theorem replaceKey_hit (k : String) (e : Entry) (p : String × Entry) (h : p.1 = k) :
    replaceKey k e p = (k, e) := by
  simp [replaceKey, h]

theorem replaceKey_miss (k : String) (e : Entry) (p : String × Entry) (h : ¬ p.1 = k) :
    replaceKey k e p = p := by
  simp [replaceKey, h]

theorem dictGet_map_replace (s : StateA) (k : String) (e : Entry)
    (h : (dictGet s k).isSome = true) :
    dictGet (s.map (replaceKey k e)) k = some e := by
  induction s with
  | nil => rw [dictGet_nil] at h; simp at h
  | cons hd tl ih =>
    obtain ⟨k1, v⟩ := hd
    by_cases hk : k1 = k
    · rw [List.map_cons, replaceKey_hit k e (k1, v) hk, dictGet_cons, if_pos rfl]
    · rw [dictGet_cons, if_neg hk] at h
      rw [List.map_cons, replaceKey_miss k e (k1, v) hk, dictGet_cons, if_neg hk]
      exact ih h

theorem dictGet_map_replace_ne (s : StateA) (k k2 : String) (e : Entry)
    (h : k2 ≠ k) :
    dictGet (s.map (replaceKey k e)) k2 = dictGet s k2 := by
  induction s with
  | nil => rfl
  | cons hd tl ih =>
    obtain ⟨k1, v⟩ := hd
    by_cases hk : k1 = k
    · rw [List.map_cons, replaceKey_hit k e (k1, v) hk, dictGet_cons, dictGet_cons,
        if_neg (fun hx => h hx.symm), if_neg (fun hx => h (hx.symm.trans hk))]
      exact ih
    · rw [List.map_cons, replaceKey_miss k e (k1, v) hk, dictGet_cons, dictGet_cons]
      by_cases hk12 : k1 = k2
      · rw [if_pos hk12, if_pos hk12]
      · rw [if_neg hk12, if_neg hk12]
        exact ih

theorem dictGet_append_single (s : StateA) (k : String) (e : Entry)
    (h : dictGet s k = none) :
    dictGet (s ++ [(k, e)]) k = some e := by
  induction s with
  | nil => rw [List.nil_append, dictGet_cons, if_pos rfl]
  | cons hd tl ih =>
    obtain ⟨k1, v⟩ := hd
    by_cases hk : k1 = k
    · rw [dictGet_cons, if_pos hk] at h
      exact absurd h (by simp)
    · rw [dictGet_cons, if_neg hk] at h
      rw [List.cons_append, dictGet_cons, if_neg hk]
      exact ih h

theorem dictGet_append_ne (s : StateA) (k k2 : String) (e : Entry)
    (h : k2 ≠ k) :
    dictGet (s ++ [(k, e)]) k2 = dictGet s k2 := by
  induction s with
  | nil =>
    rw [List.nil_append, dictGet_cons, if_neg (fun hx => h hx.symm), dictGet_nil]
  | cons hd tl ih =>
    obtain ⟨k1, v⟩ := hd
    rw [List.cons_append, dictGet_cons, dictGet_cons]
    by_cases hk12 : k1 = k2
    · rw [if_pos hk12, if_pos hk12]
    · rw [if_neg hk12, if_neg hk12]
      exact ih

theorem dictGet_dictInsert_self (s : StateA) (k : String) (e : Entry) :
    dictGet (dictInsert s k e) k = some e := by
  unfold dictInsert
  by_cases h : (dictGet s k).isSome = true
  · rw [if_pos h]
    exact dictGet_map_replace s k e h
  · rw [if_neg h]
    apply dictGet_append_single
    cases hh : dictGet s k with
    | none => rfl
    | some v => rw [hh] at h; simp at h

theorem dictGet_dictInsert_ne (s : StateA) (k k2 : String) (e : Entry)
    (h : k2 ≠ k) :
    dictGet (dictInsert s k e) k2 = dictGet s k2 := by
  unfold dictInsert
  split
  · exact dictGet_map_replace_ne s k k2 e h
  · exact dictGet_append_ne s k k2 e h

theorem loadedSchemaVersion_after_upgrade (s2 : StateA) :
    loadedSchemaVersion (dictInsert s2 "_meta" (Entry.meta (11 / 10) none)) = some (11 / 10) := by
  unfold loadedSchemaVersion
  rw [dictGet_dictInsert_self]

theorem migrate_eq (s : StateA) (v : ℚ) (hv : loadedSchemaVersion s = some v) :
    migrate s = if v < VERSION then upgrade_state_schema s v else some s := by
  unfold migrate
  rw [hv]

theorem migrate_of_current (s : StateA) (v : ℚ) (h1 : loadedSchemaVersion s = some v)
    (h2 : ¬ v < VERSION) : migrate s = some s := by
  rw [migrate_eq s v h1, if_neg h2]

theorem migrate_result_current (s s2 : StateA) (h : migrate s = some s2) :
    ∃ v, loadedSchemaVersion s2 = some v ∧ ¬ v < VERSION := by
  cases hv : loadedSchemaVersion s with
  | none =>
    unfold migrate at h
    rw [hv] at h
    exact absurd h (by simp)
  | some v =>
    rw [migrate_eq s v hv] at h
    by_cases h1 : v < VERSION
    · rw [if_pos h1] at h
      unfold upgrade_state_schema at h
      have h2 : v < (11 : ℚ) / 10 := h1
      rw [if_pos h2] at h
      cases hm : s.mapM remapEntry with
      | none => rw [hm] at h; exact absurd h (by simp)
      | some s3 =>
        rw [hm] at h
        simp only [Option.map_some', Option.some.injEq] at h
        subst h
        exact ⟨11 / 10, loadedSchemaVersion_after_upgrade s3, by simp [VERSION]⟩
    · rw [if_neg h1] at h
      cases h
      exact ⟨v, hv, h1⟩

/-- Claim C5 (confirmed): schema migration is idempotent — running `migrate` on
the result of `migrate` changes nothing (`Option.bind` propagates the fatal
outcome of a failed migration), because the single 1.0 → 1.1 upgrade step is
guarded by the version check of line 155 and a migrated state carries
`schema_version = 1.1`, which the guard rejects on a second pass. -/
theorem migrate_idempotent (s : StateA) : (migrate s).bind migrate = migrate s := by
  cases h : migrate s with
  | none => rfl
  | some s2 =>
    obtain ⟨v, hv, hge⟩ := migrate_result_current s s2 h
    show migrate s2 = some s2
    exact migrate_of_current s2 v hv hge

/-- Claim C1 (code bug): with limit `count_max = 100`, a window whose reported
message count is 101 — exceeding the limit — takes the `num_messages > 0`
branch of line 252 and is written out; the anomaly branch of line 255
(`elif num_messages > count_max`, whose own log line announces the window is
skipped) is unreachable, because a count exceeding the limit is in particular
positive. The code thus writes the window and logs nothing, where both the
spec and the dead branch's own message call for an anomaly log and no file. -/
theorem excess_count_window_written : exportDecision 101 100 = WriteAction.write := rfl

theorem pauseAfter_ge (w p : ℕ) : p ≤ pauseAfter w p := Nat.le_add_right p _

theorem fetchLoop_failure_retry (e : ApiErrorInfo) (rest : List ApiResponse) (p w p2 : ℕ)
    (h : handleApiError e p = some (w, p2)) :
    fetchLoop (ApiResponse.failure e :: rest) p = fetchLoop rest p2 := by
  show (match handleApiError e p with
        | some (_, q) => fetchLoop rest q
        | none => FetchOutcome.fatal) = fetchLoop rest p2
  rw [h]

theorem handleApiError_small (w p : ℕ) (hw : w < 300) :
    handleApiError ⟨true, some w⟩ p = some (w, pauseAfter w p) := by
  simp [handleApiError, hw]

theorem fetchLoop_replicate (w : ℕ) (hw : w < 300) (n p : ℕ) (t : String) (c : ℕ) :
    fetchLoop (List.replicate n (ApiResponse.failure ⟨true, some w⟩) ++
      [ApiResponse.success t c]) p = FetchOutcome.done t c ((pauseAfter w)^[n] p) := by
  induction n generalizing p with
  | zero => rfl
  | succ k ih =>
    rw [List.replicate_succ, List.cons_append,
      fetchLoop_failure_retry _ _ p w (pauseAfter w p) (handleApiError_small w p hw),
      ih (pauseAfter w p), Function.iterate_succ_apply]

theorem pauseAfter_iterate_ge (w n p : ℕ) : p ≤ (pauseAfter w)^[n] p := by
  induction n generalizing p with
  | zero => exact Nat.le_refl p
  | succ k ih =>
    rw [Function.iterate_succ_apply]
    exact Nat.le_trans (pauseAfter_ge w p) (ih (pauseAfter w p))

/-- Claim C2, counterexample: the claim says a rate-limit wait of w ≤ 300
seconds is slept and the same window retried; at exactly w = 300 the guard
`seconds_to_wait < 300` of line 235 fails and the handler aborts the run
fatally (`none`, the `Unresonable amount of time` exception of line 240)
instead of sleeping and retrying. -/
theorem rate_limit_wait_300_fatal :
    300 ≤ 300 ∧ handleApiError ⟨true, some 300⟩ 5 = none := by decide

/-- Claim C2 (amended): when a history fetch fails with a rate-limit error
embedding a wait of w seconds, then for w < 300 (strictly) the fetcher sleeps
w seconds, raises the pacing delay by `pauseAfter` — never decreasing it — and
retries the same window with no retry cap (any finite number n of consecutive
such failures still reaches the eventual success, with the pacing delay never
below its starting value), while for w ≥ 300 it fails fatally, aborting the
run. -/
theorem rate_limit_retry_behaviour (w p n : ℕ) (t : String) (c : ℕ) :
    (w < 300 →
      handleApiError ⟨true, some w⟩ p = some (w, pauseAfter w p) ∧
      p ≤ pauseAfter w p ∧
      fetchLoop (List.replicate n (ApiResponse.failure ⟨true, some w⟩) ++
        [ApiResponse.success t c]) p = FetchOutcome.done t c ((pauseAfter w)^[n] p) ∧
      p ≤ (pauseAfter w)^[n] p) ∧
    (300 ≤ w → handleApiError ⟨true, some w⟩ p = none) := by
  constructor
  · intro hw
    exact ⟨handleApiError_small w p hw, pauseAfter_ge w p,
      fetchLoop_replicate w hw n p t c, pauseAfter_iterate_ge w n p⟩
  · intro hw
    have hx : ¬ w < 300 := by omega
    simp [handleApiError, hx]

/-- Concrete instance of `rate_limit_retry_behaviour`: a 5-second wait at
pacing delay 2 with two consecutive rate-limit failures, and the fatal
boundary at a 300-second wait. -/
theorem rate_limit_retry_behaviour_witness :
    (handleApiError ⟨true, some 5⟩ 2 = some (5, pauseAfter 5 2) ∧
      2 ≤ pauseAfter 5 2 ∧
      fetchLoop (List.replicate 2 (ApiResponse.failure ⟨true, some 5⟩) ++
        [ApiResponse.success "x" 3]) 2 = FetchOutcome.done "x" 3 ((pauseAfter 5)^[2] 2) ∧
      2 ≤ (pauseAfter 5)^[2] 2) ∧
    handleApiError ⟨true, some 300⟩ 7 = none :=
  ⟨(rate_limit_retry_behaviour 5 2 2 "x" 3).1 (by decide),
   (rate_limit_retry_behaviour 300 7 0 "" 0).2 (by decide)⟩

/-- Claim C6, counterexample: with prior state-file contents "OLD" and new
serialised state "NEW", the file-system state right after
`open(state_file, 'wb')` (the second element of the save trace) is a visible,
truncated-to-empty state file — neither the old nor the new contents — so a
load at that moment sees a partially written file: the save is not
write-then-rename. -/
theorem state_save_partial_file_example :
    (stateSaveStates (some "OLD") "NEW")[1]? = some (some "") ∧
    some "" ≠ some "OLD" ∧ (some "" : Option String) ≠ some "NEW" := by decide

/-- Claim C6 (amended): the state save of lines 274-276 writes the state file
in place — `open('wb')` truncates it before `pickle.dump` writes the new
contents — so whenever the old contents and the serialised state are distinct
from the empty string, an intermediate visible file-system state (the
truncated file) differs from both; no write-then-rename or equivalent atomic
replacement is performed. -/
theorem state_save_intermediate_visible (old : Option String) (ser : String)
    (h1 : old ≠ some "") (h2 : ser ≠ "") :
    (stateSaveStates old ser)[1]? = some (some "") ∧
    some "" ≠ old ∧ (some "" : Option String) ≠ some ser :=
  ⟨rfl, fun hx => h1 hx.symm, fun hx => h2 (Option.some.inj hx).symm⟩

/-- Concrete instance of `state_save_intermediate_visible`. -/
theorem state_save_intermediate_visible_witness :
    (stateSaveStates (some "OLD2") "NEW2")[1]? = some (some "") ∧
    some "" ≠ some "OLD2" ∧ (some "" : Option String) ≠ some "NEW2" :=
  state_save_intermediate_visible (some "OLD2") "NEW2" (by decide) (by decide)

/-- Claim C7 (confirmed): the effective lower bound `t_oldest` of a room's
plan is `max(begintime, start_time)` when a global start is supplied
(line 191, whose `b if b > s else s` is exactly the maximum), else one
microsecond past `lastsaved` when that watermark has been set, i.e. differs
from `null_date` (line 194), else the room's `begintime` (line 197). -/
theorem effective_lower_bound_rule (r : Room) (st : ℕ) :
    selectLower r (some st) = max r.begintime st ∧
    (r.lastsaved ≠ nullDate → selectLower r none = r.lastsaved + 1) ∧
    (r.lastsaved = nullDate → selectLower r none = r.begintime) := by
  refine ⟨?_, ?_, ?_⟩
  · simp only [selectLower]
    split <;> omega
  · intro h
    simp [selectLower, h]
  · intro h
    simp [selectLower, h]

/-- Concrete instances of `effective_lower_bound_rule`, one per branch. -/
theorem effective_lower_bound_rule_witness :
    selectLower ⟨"general", "channels", 200, 3, 50⟩ (some 7) = max 3 7 ∧
    selectLower ⟨"general", "channels", 200, 3, 50⟩ none = 200 + 1 ∧
    selectLower ⟨"dm1", "ims", 0, 9, 50⟩ none = 9 :=
  ⟨(effective_lower_bound_rule ⟨"general", "channels", 200, 3, 50⟩ 7).1,
   (effective_lower_bound_rule ⟨"general", "channels", 200, 3, 50⟩ 7).2.1 (by decide),
   (effective_lower_bound_rule ⟨"dm1", "ims", 0, 9, 50⟩ 7).2.2 rfl⟩

/-- Claim C3, counterexample: a room loaded with watermark 200 and run with
global end time 100 — an explicitly earlier `--dateend` — is persisted with
watermark 100 < 200, so `syncedThrough` is not monotonically non-decreasing
across runs. -/
theorem watermark_can_decrease :
    runWatermarkPass [("general", Entry.room ⟨"general", "channels", 200, 0, 150⟩)] 100 =
      [("general", Entry.room ⟨"general", "channels", 100, 0, 150⟩)] ∧
    ¬ (200 : ℕ) ≤ 100 := by decide

/-- Claim C3 (amended): the watermark persisted at the end of a run equals the
run's global end time for every room — line 269 assigns it unconditionally,
never comparing it with the loaded value — so it is at or above the watermark
loaded at the start of the run exactly when the global end time is; runs whose
end bound does not precede the previous run's end (e.g. the default
yesterday-end on successive days) preserve monotonicity, while an explicitly
earlier `--dateend` lowers the watermark. -/
theorem watermark_update_rule (s : StateA) (e : ℕ) (id : String) (r : Room)
    (h : (id, Entry.room r) ∈ s) :
    (id, Entry.room { r with lastsaved := e }) ∈ runWatermarkPass s e ∧
    (r.lastsaved ≤ e → r.lastsaved ≤ ({ r with lastsaved := e } : Room).lastsaved) :=
  ⟨List.mem_map_of_mem (fun p => (p.1, setLastsaved p.2 e)) h, fun hx => hx⟩

/-- Concrete instance of `watermark_update_rule`. -/
theorem watermark_update_rule_witness :
    ("general", Entry.room ⟨"general", "channels", 300, 0, 150⟩) ∈
      runWatermarkPass [("general", Entry.room ⟨"general", "channels", 10, 0, 150⟩)] 300 ∧
    ((10 : ℕ) ≤ 300 → (10 : ℕ) ≤ 300) :=
  watermark_update_rule [("general", Entry.room ⟨"general", "channels", 10, 0, 150⟩)]
    300 "general" ⟨"general", "channels", 10, 0, 150⟩ (by decide)

/-- Claim C4, counterexample: on a state holding only the metadata entry, the
room loop modifies that entry — line 269 sits outside the
`if channel_id != '_meta'` guard, so it adds `lastsaved = end_time` to the
`'_meta'` dict. -/
theorem meta_entry_gains_lastsaved :
    runWatermarkPass [("_meta", Entry.meta 1 none)] 5 ≠
      [("_meta", Entry.meta 1 none)] := by decide

/-- Claim C4 (amended): after a room's window plan is exhausted — the
assignment follows the window loop unconditionally, so an empty plan is
included — line 269 sets the room's `lastsaved` to the global end time; the
`if channel_id != '_meta'` guard of line 179 skips only the window processing,
while line 269, indented outside that guard, also runs on the metadata entry,
adding `lastsaved = end_time` to it: the loop does modify the metadata
entry. -/
theorem room_loop_watermark_effects (s : StateA) (e : ℕ) (id : String) (r : Room)
    (v : ℚ) (ls : Option ℕ)
    (h1 : (id, Entry.room r) ∈ s) (h2 : ("_meta", Entry.meta v ls) ∈ s) :
    (id, Entry.room { r with lastsaved := e }) ∈ runWatermarkPass s e ∧
    ("_meta", Entry.meta v (some e)) ∈ runWatermarkPass s e :=
  ⟨List.mem_map_of_mem (fun p => (p.1, setLastsaved p.2 e)) h1,
   List.mem_map_of_mem (fun p => (p.1, setLastsaved p.2 e)) h2⟩

/-- Concrete instance of `room_loop_watermark_effects`. -/
theorem room_loop_watermark_effects_witness :
    ("r1", Entry.room ⟨"general", "channels", 7, 0, 3⟩) ∈
      runWatermarkPass
        [("_meta", Entry.meta 1 none), ("r1", Entry.room ⟨"general", "channels", 2, 0, 3⟩)] 7 ∧
    ("_meta", Entry.meta 1 (some 7)) ∈
      runWatermarkPass
        [("_meta", Entry.meta 1 none), ("r1", Entry.room ⟨"general", "channels", 2, 0, 3⟩)] 7 :=
  room_loop_watermark_effects
    [("_meta", Entry.meta 1 none), ("r1", Entry.room ⟨"general", "channels", 2, 0, 3⟩)]
    7 "r1" ⟨"general", "channels", 2, 0, 3⟩ 1 none (by decide) (by decide)

/-- Claim C8, counterexample to its idempotence clause: a room that completed
a run with global bounds start = 0 and end = 3 days − 1 μs — its `lastsaved`
was advanced to that very end — is re-planned with the same, unchanged bounds;
the supplied global start takes priority over the watermark, the lower bound
is max(begintime, 0) = 0 again, and the plan is non-empty. -/
theorem replan_after_run_with_start_nonempty :
    (⟨"general", "channels", 3 * oneDay - 1, 0, oneDay + 5⟩ : Room).lastsaved =
      3 * oneDay - 1 ∧
    planFrom
      (selectLower ⟨"general", "channels", 3 * oneDay - 1, 0, oneDay + 5⟩ (some 0))
      (3 * oneDay - 1) (oneDay + 5) ≠ [] := by
  refine ⟨rfl, ?_⟩
  have hsel :
      selectLower ⟨"general", "channels", 3 * oneDay - 1, 0, oneDay + 5⟩ (some 0) = 0 := by
    simp [selectLower]
  rw [hsel, Ne, planFrom_nil_iff]
  push_neg
  refine ⟨?_, ?_⟩ <;> (simp only [oneDay]; omega)

/-- Claim C8 (amended): the plan is empty exactly when the effective lower
bound is at or above the global end, or at or above the room's last remote
message time (the loop condition of line 206); and re-planning immediately
after a completed run — which advanced `lastsaved` to the global end — with NO
global start supplied and the global end unchanged yields no windows, the
watermark path placing the lower bound one microsecond past that end. With a
global start supplied the claim's idempotence clause fails (see the
counterexample). -/
theorem plan_empty_rule (L e m : ℕ) (r : Room) (he : r.lastsaved = e)
    (hne : e ≠ nullDate) :
    (planFrom L e m = [] ↔ e ≤ L ∨ m ≤ L) ∧
    planFrom (selectLower r none) e r.lastmessage = [] := by
  refine ⟨planFrom_nil_iff L e m, ?_⟩
  have hset : r.lastsaved ≠ nullDate := by rw [he]; exact hne
  have hsel : selectLower r none = e + 1 := by
    simp only [selectLower]
    rw [if_pos hset, he]
  rw [hsel]
  exact planFrom_nil _ _ _ (Or.inl (Nat.le_succ e))

/-- Concrete instance of `plan_empty_rule`. -/
theorem plan_empty_rule_witness :
    (planFrom 50 42 9 = [] ↔ 42 ≤ 50 ∨ 9 ≤ 50) ∧
    planFrom (selectLower ⟨"general", "channels", 42, 0, 50⟩ none) 42
      (⟨"general", "channels", 42, 0, 50⟩ : Room).lastmessage = [] :=
  plan_empty_rule 50 42 9 ⟨"general", "channels", 42, 0, 50⟩ rfl (by decide)

/-- Claim C9 (confirmed): under the alignment invariants the script maintains
— `begintime` truncated to start of day (line 114), a supplied global start
parsed at T00:00:00.000 (line 63), and a set watermark equal to an end-of-day
instant (lines 64 and 269) — the effective lower bound falls on a calendar-day
boundary, and the plan consists of windows `[d, d + 1 day − 1 μs]`, each
starting on a day boundary and spanning exactly that one calendar day, each
starting below both bounds, contiguous (each next window starts one
microsecond after the previous ends), mutually non-overlapping hence in
ascending order, with the first window of a non-empty plan starting at the
lower bound itself. -/
theorem plan_window_shape (r : Room) (g : Option ℕ) (e : ℕ)
    (hb : r.begintime % oneDay = 0)
    (hg : ∀ st, g = some st → st % oneDay = 0)
    (hl : r.lastsaved ≠ nullDate → r.lastsaved % oneDay = oneDay - 1) :
    selectLower r g % oneDay = 0 ∧
    planWF (planFrom (selectLower r g) e r.lastmessage) e r.lastmessage ∧
    List.Chain' contiguousNext (planFrom (selectLower r g) e r.lastmessage) ∧
    List.Pairwise windowsDisjoint (planFrom (selectLower r g) e r.lastmessage) ∧
    (planFrom (selectLower r g) e r.lastmessage = [] ∨
      (planFrom (selectLower r g) e r.lastmessage).head? =
        some (selectLower r g, selectLower r g + oneDay - 1)) := by
  have hL : selectLower r g % oneDay = 0 := by
    cases g with
    | some st =>
      have hst := hg st rfl
      simp only [selectLower]
      split
      · exact hb
      · exact hst
    | none =>
      simp only [selectLower]
      split
      · rename_i hset
        have h2 := hl hset
        simp only [oneDay] at h2 ⊢
        omega
      · exact hb
  refine ⟨hL, ?_, planFrom_chain _ _ _, planFrom_pairwise _ _ _, ?_⟩
  · intro w hw
    obtain ⟨h1, h2, h3, _, h5⟩ := planFrom_mem _ _ _ w hw
    exact ⟨by rw [h5, hL], h1, h2, h3⟩
  · by_cases hnil : planFrom (selectLower r g) e r.lastmessage = []
    · exact Or.inl hnil
    · right
      have hc : ¬ (e ≤ selectLower r g ∨ r.lastmessage ≤ selectLower r g) :=
        fun hx => hnil (planFrom_nil _ _ _ hx)
      push_neg at hc
      rw [planFrom_cons _ _ _ hc.1 hc.2]
      rfl

/-- Concrete instance of `plan_window_shape`: a room created at instant 0 with
a message on day 1, no watermark, no global start, global end at day 2's end;
the plan is the two whole-day windows of days 0 and 1. -/
theorem plan_window_shape_witness :
    selectLower ⟨"general", "channels", 0, 0, oneDay + 1⟩ none % oneDay = 0 ∧
    planWF
      (planFrom (selectLower ⟨"general", "channels", 0, 0, oneDay + 1⟩ none)
        (2 * oneDay - 1) (⟨"general", "channels", 0, 0, oneDay + 1⟩ : Room).lastmessage)
      (2 * oneDay - 1) (⟨"general", "channels", 0, 0, oneDay + 1⟩ : Room).lastmessage ∧
    List.Chain' contiguousNext
      (planFrom (selectLower ⟨"general", "channels", 0, 0, oneDay + 1⟩ none)
        (2 * oneDay - 1) (⟨"general", "channels", 0, 0, oneDay + 1⟩ : Room).lastmessage) ∧
    List.Pairwise windowsDisjoint
      (planFrom (selectLower ⟨"general", "channels", 0, 0, oneDay + 1⟩ none)
        (2 * oneDay - 1) (⟨"general", "channels", 0, 0, oneDay + 1⟩ : Room).lastmessage) ∧
    (planFrom (selectLower ⟨"general", "channels", 0, 0, oneDay + 1⟩ none)
        (2 * oneDay - 1) (⟨"general", "channels", 0, 0, oneDay + 1⟩ : Room).lastmessage = [] ∨
      (planFrom (selectLower ⟨"general", "channels", 0, 0, oneDay + 1⟩ none)
          (2 * oneDay - 1)
          (⟨"general", "channels", 0, 0, oneDay + 1⟩ : Room).lastmessage).head? =
        some (selectLower ⟨"general", "channels", 0, 0, oneDay + 1⟩ none,
          selectLower ⟨"general", "channels", 0, 0, oneDay + 1⟩ none + oneDay - 1)) :=
  plan_window_shape ⟨"general", "channels", 0, 0, oneDay + 1⟩ none (2 * oneDay - 1)
    (by simp) (fun st hst => nomatch hst) (fun hx => absurd rfl hx)

theorem dictGet_updateLm_other (s : StateA) (c : ChannelDesc) (id : String)
    (h : c._id ≠ id) : dictGet (updateLm s c) id = dictGet s id := by
  unfold updateLm
  cases hx : dictGet s c._id with
  | none => rfl
  | some e =>
    cases e with
    | meta v ls => rfl
    | room r => exact dictGet_dictInsert_ne s c._id id _ (fun hy => h hy.symm)

theorem dictGet_assembleOne_other (s : StateA) (ty : String) (c : ChannelDesc)
    (id : String) (h : c._id ≠ id) :
    dictGet (assembleOne s ty c) id = dictGet s id := by
  unfold assembleOne
  by_cases hx : (dictGet s c._id).isSome = true
  · rw [if_pos hx, dictGet_updateLm_other _ c id h]
  · rw [if_neg hx, dictGet_updateLm_other _ c id h,
      dictGet_dictInsert_ne s c._id id _ (fun hy => h hy.symm)]

theorem dictGet_assembleOne_self (s : StateA) (ty : String) (c : ChannelDesc) (r : Room)
    (hs : dictGet s c._id = some (Entry.room r)) :
    dictGet (assembleOne s ty c) c._id =
      some (Entry.room { r with lastmessage := c.lm.getD nullDate }) := by
  unfold assembleOne
  have hx : (dictGet s c._id).isSome = true := by rw [hs]; rfl
  rw [if_pos hx]
  unfold updateLm
  rw [hs]
  exact dictGet_dictInsert_self s c._id _

theorem refreshedLm_cons (c : ChannelDesc) (rest : List ChannelDesc) (id : String)
    (old : ℕ) :
    refreshedLm (c :: rest) id old =
      refreshedLm rest id (if c._id = id then c.lm.getD nullDate else old) := rfl

theorem assemble_state_lookup (channels : List ChannelDesc) (ty : String) :
    ∀ (s : StateA) (id : String) (r : Room), dictGet s id = some (Entry.room r) →
      dictGet (assemble_state s channels ty) id =
        some (Entry.room { r with lastmessage := refreshedLm channels id r.lastmessage }) := by
  induction channels with
  | nil =>
    intro s id r h
    exact h
  | cons c rest ih =>
    intro s id r h
    show dictGet (assemble_state (assembleOne s ty c) rest ty) id = _
    by_cases hc : c._id = id
    · have h2 : dictGet (assembleOne s ty c) c._id =
          some (Entry.room { r with lastmessage := c.lm.getD nullDate }) :=
        dictGet_assembleOne_self s ty c r (by rw [hc]; exact h)
      rw [hc] at h2
      have h3 := ih (assembleOne s ty c) id { r with lastmessage := c.lm.getD nullDate } h2
      rw [h3, refreshedLm_cons, if_pos hc]
    · have h2 : dictGet (assembleOne s ty c) id = some (Entry.room r) := by
        rw [dictGet_assembleOne_other s ty c id hc]
        exact h
      rw [ih (assembleOne s ty c) id r h2, refreshedLm_cons, if_neg hc]

/-- Claim C10 (confirmed): for a room id already present in the state,
`assemble_state` changes only that room's `lastmessage` — refreshed to the
provider's last reported `lm` value for that id (an absent field mapping to
the `null_date` sentinel of a message-less room, via `Option.getD`), and left
as loaded when the provider list does not mention the id — while `name`,
`type`, `lastsaved` (the spec's syncedThrough) and `begintime` (createdAt) are
untouched, as the record-update form of the conclusion states. -/
theorem assemble_state_frame (s : StateA) (channels : List ChannelDesc) (ty : String)
    (id : String) (r : Room) (h : dictGet s id = some (Entry.room r)) :
    dictGet (assemble_state s channels ty) id =
      some (Entry.room { r with lastmessage := refreshedLm channels id r.lastmessage }) :=
  assemble_state_lookup channels ty s id r h

/-- Concrete instance of `assemble_state_frame`: an existing room whose
provider descriptor lacks the `lm` field; its stored last-message time is
reset to the sentinel while the other four fields survive. -/
theorem assemble_state_frame_witness :
    dictGet
      (assemble_state [("abc", Entry.room ⟨"general", "channels", 7, 3, 99⟩)]
        [⟨"abc", some "general", 5, none⟩] "channels") "abc" =
      some (Entry.room ⟨"general", "channels", 7, 3,
        refreshedLm [⟨"abc", some "general", 5, none⟩] "abc" 99⟩) :=
  assemble_state_frame [("abc", Entry.room ⟨"general", "channels", 7, 3, 99⟩)]
    [⟨"abc", some "general", 5, none⟩] "channels" "abc"
    ⟨"general", "channels", 7, 3, 99⟩ (by decide)

end ExportHistory
